import Mathlib

/-
Verification of the BugBountyMCP dashboard and its spec.

The definitions below are shallow embeddings of the JavaScript sources of
the repository (the React dashboard under BugBountyDashBoard/src and the
unnamed source parts).  The ingestion/analysis backend (Normalizer,
AnalysisEngine, GraphBuilder) is not part of the source tree, so the
definitions concerning it are modelled from the spec and are marked as
such in their doc comments.
-/

set_option autoImplicit false

namespace BugBounty

/-! ## The API client module (BugBountyDashBoard/src/services/api.js)

`apiModuleExports` lists, in source order, the names of every named
binding exported by `services/api.js`. -/

def apiModuleExports : List String :=
  [ "healthCheck"
  , "listPrograms", "getProgram", "getProgramBasic", "createProgram"
  , "updateProgram", "deleteProgram", "updateProgramName"
  , "getHostsByProgram", "getHostWithEndpoints", "getHostWithServices"
  , "getEndpointsByHost", "getEndpointWithDetails", "getEndpointFullDetails"
  , "getParametersByEndpoint", "getHeadersByEndpoint", "getHostsWithStats"
  , "getProgramStats", "getEndpointsWithBody"
  , "scanSubfinder", "scanHTTPX", "scanGAU", "scanWaymore", "scanKatana"
  , "scanPlaywright", "scanLinkFinder", "scanMantra", "scanFFUF", "scanDNSx"
  , "scanSubjack", "scanASNMap", "scanMapCIDR", "scanNaabu"
  , "getInjectionCandidates", "getSSRFCandidates", "getIDORCandidates"
  , "getFileUploadCandidates", "getReflectedParameters", "getArjunCandidates"
  , "getAdminDebugEndpoints", "getCORSAnalysis", "getSensitiveHeaders"
  , "getHostTechnologies", "getSubdomainTakeoverCandidates", "getAPIPatterns"
  , "proxyRequest" ]

/-- The named bindings the infrastructure hook (`useInfrastructure`, the
unnamed part importing from `../services/api`) imports from the API client
module: `import { getInfrastructureGraph } from '../services/api'`. -/
def useInfrastructureApiImports : List String := ["getInfrastructureGraph"]

/-! ## Scan forms: target preparation

The inline scan forms of the Scans page (unnamed part with
`SubfinderScan.handleSubmit`, `HTTPXScan.handleSubmit`, …) all prepare the
`targets` array as `targets.split('\n').filter(t => t.trim())`: split on
newline, keep the lines whose trimmed form is non-empty, and pass each
kept line through unchanged. -/

/-- JS `String.prototype.split` with a one-character separator, over the
character list (`''.split(c)` gives `['']`, as in JS). -/
def splitOnChar (sep : Char) : List Char → List (List Char)
  | [] => [[]]
  | c :: cs =>
    let rest := splitOnChar sep cs
    if c = sep then [] :: rest
    else ((c :: rest.headD []) :: rest.tail)

/-- `text.split('\n')`. -/
def jsSplitLines (s : String) : List String := (splitOnChar '\n' s.data).map String.mk

/-- `t.trim()`: strip leading and trailing whitespace. -/
def jsTrim (s : String) : String :=
  String.mk (((s.data.dropWhile Char.isWhitespace).reverse.dropWhile
    Char.isWhitespace).reverse)

/-- The target preparation of every inline form of the Scans page:
`targets.split('\n').filter(t => t.trim())`. -/
def scanPageTargets (text : String) : List String :=
  (jsSplitLines text).filter (fun t => jsTrim t != "")

/-- `BaseScanForm.handleSubmit`
(BugBountyDashBoard/src/components/scans/forms/BaseScanForm.jsx) instead
prepares `targets` as `.split('\n').map(t => t.trim()).filter(Boolean)`:
every kept line is trimmed before submission. -/
def baseScanFormTargets (text : String) : List String :=
  ((jsSplitLines text).map jsTrim).filter (fun t => t != "")

/-! ## Pagination defaults -/

structure Pagination where
  limit : Nat
  offset : Nat
  deriving DecidableEq, Repr

/-- Initial pagination state of the analysis hook (`useAnalysis`):
`useState({ limit: 50, offset: 0 })`. -/
def useAnalysisInitialPagination : Pagination := { limit := 50, offset := 0 }

structure HostsPagination where
  limit : Nat
  offset : Nat
  total : Nat
  deriving DecidableEq, Repr

/-- Initial pagination state of the hosts hook (`useHosts`):
`useState({ limit: 50, offset: 0, total: 0 })`. -/
def useHostsInitialPagination : HostsPagination := { limit := 50, offset := 0, total := 0 }

/-- The pagination parameters `loadCategory` sends with a category query:
`{ limit: pagination.limit, offset: pagination.offset }`. -/
def loadCategoryParams (p : Pagination) : Nat × Nat := (p.limit, p.offset)

/-- The pagination parameters `loadHosts` sends with the host listing:
`{ limit: pagination.limit, offset: pagination.offset }`. -/
def loadHostsParams (p : HostsPagination) : Nat × Nat := (p.limit, p.offset)

/-! ## The infrastructure graph hook (`useInfrastructure`)

Shallow embedding of the unnamed source part defining `useInfrastructure`:
the fetched raw graph, the five per-node-type filters, the `NODE_COLORS`
and `NODE_SIZES` constants, the `filteredGraphData` memo and the
`toggleFilter` state update. -/

structure GraphNode where
  id : String
  label : String
  type : String
  data : String
  deriving DecidableEq, Repr

structure GraphEdge where
  source : String
  target : String
  type : String
  deriving DecidableEq, Repr

/-- The response body of the infrastructure graph endpoint:
`{ nodes: [...], edges: [...] }` (the `stats` object is kept separately by
the hook and does not enter `filteredGraphData`). -/
structure RawGraph where
  nodes : List GraphNode
  edges : List GraphEdge
  deriving DecidableEq, Repr

structure GraphFilters where
  showASN : Bool
  showCIDR : Bool
  showIP : Bool
  showService : Bool
  showHost : Bool
  deriving DecidableEq, Repr

/-- Initial filter state of the hook: all five node-type filters enabled. -/
def initialGraphFilters : GraphFilters :=
  { showASN := true, showCIDR := true, showIP := true
  , showService := true, showHost := true }

/-- The `NODE_COLORS` constant of `useInfrastructure`. -/
def NODE_COLORS : List (String × String) :=
  [ ("asn", "#ef4444"), ("cidr", "#f97316"), ("ip", "#eab308")
  , ("service", "#22c55e"), ("host", "#3b82f6") ]

/-- The `NODE_SIZES` constant of `useInfrastructure`. -/
def NODE_SIZES : List (String × Nat) :=
  [ ("asn", 12), ("cidr", 10), ("ip", 6), ("service", 5), ("host", 8) ]

/-- `NODE_COLORS[type] || '#666'` (all colors in the table are non-empty
strings, so JS falsiness coincides with absence from the table). -/
def nodeColorOf (t : String) : String := (NODE_COLORS.lookup t).getD "#666"

/-- `NODE_SIZES[type] || 6` (all sizes in the table are non-zero). -/
def nodeSizeOf (t : String) : Nat := (NODE_SIZES.lookup t).getD 6

/-- The node-visibility test of `filteredGraphData`: a node is dropped
exactly when its type's filter is disabled. -/
def nodeVisible (f : GraphFilters) (n : GraphNode) : Bool :=
  if n.type == "asn" && !f.showASN then false
  else if n.type == "cidr" && !f.showCIDR then false
  else if n.type == "ip" && !f.showIP then false
  else if n.type == "service" && !f.showService then false
  else if n.type == "host" && !f.showHost then false
  else true

/-- A node as handed to the canvas: the mapped object
`{ id, label, type, color, size, data }`. -/
structure DisplayNode where
  id : String
  label : String
  type : String
  color : String
  size : Nat
  data : String
  deriving DecidableEq, Repr

/-- A link as handed to the canvas: `{ source, target, type }`. -/
structure DisplayLink where
  source : String
  target : String
  type : String
  deriving DecidableEq, Repr

structure DisplayGraph where
  nodes : List DisplayNode
  links : List DisplayLink
  deriving DecidableEq, Repr

/-- The mapping applied to each visible node in `filteredGraphData`. -/
def displayNode (n : GraphNode) : DisplayNode :=
  { id := n.id, label := n.label, type := n.type
  , color := nodeColorOf n.type, size := nodeSizeOf n.type, data := n.data }

/-- The mapping applied to each surviving edge in `filteredGraphData`. -/
def displayLink (e : GraphEdge) : DisplayLink :=
  { source := e.source, target := e.target, type := e.type }

/-- `filteredGraphData`: the memo deriving the displayed graph from the
fetched raw graph and the filter flags.  `rawData` is `null` before the
first successful fetch (`Option`).  The JS `Set` of visible node ids is
embedded as list membership. -/
def filteredGraphData (rawData : Option RawGraph) (f : GraphFilters) : DisplayGraph :=
  match rawData with
  | none => { nodes := [], links := [] }
  | some raw =>
    let visibleNodes := raw.nodes.filter (nodeVisible f)
    let visibleNodeIds := visibleNodes.map (fun n => n.id)
    let visibleLinks :=
      (raw.edges.filter (fun e =>
        visibleNodeIds.contains e.source && visibleNodeIds.contains e.target)).map displayLink
    { nodes := visibleNodes.map displayNode, links := visibleLinks }

/-- The state of the `useInfrastructure` hook that `toggleFilter` acts on:
the stored full graph and the filter flags. -/
structure InfraState where
  rawData : Option RawGraph
  filters : GraphFilters
  deriving DecidableEq, Repr

inductive FilterName
  | showASN | showCIDR | showIP | showService | showHost
  deriving DecidableEq, Repr

/-- `toggleFilter(filterName)`: flips one filter flag and touches nothing
else of the hook state. -/
def toggleFilter (s : InfraState) (name : FilterName) : InfraState :=
  { s with filters :=
      match name with
      | .showASN => { s.filters with showASN := !s.filters.showASN }
      | .showCIDR => { s.filters with showCIDR := !s.filters.showCIDR }
      | .showIP => { s.filters with showIP := !s.filters.showIP }
      | .showService => { s.filters with showService := !s.filters.showService }
      | .showHost => { s.filters with showHost := !s.filters.showHost } }

/-! ## Render decisions of the views -/

inductive AnalysisRender
  | loading | empty | table
  deriving DecidableEq, Repr

/-- The data a category holds in the analysis view. -/
structure AnalysisViewData where
  items : List String
  total : Nat
  deriving DecidableEq, Repr

/-- The render decision of `AnalysisTable`: a spinner while loading, the
dashed "No results found" block when there is no data or no items, and
the table otherwise. -/
def analysisTableRender (loading : Bool) (data : Option AnalysisViewData) : AnalysisRender :=
  if loading then .loading
  else
    match data with
    | none => .empty
    | some d => if d.items.isEmpty then .empty else .table

inductive GraphRender
  | loading | noData | graph
  deriving DecidableEq, Repr

/-- The render decision of `GraphCanvas`: a spinner while loading, the
"No infrastructure data available" block when the graph is absent or has
zero nodes, and the force graph otherwise. -/
def graphCanvasRender (loading : Bool) (g : Option DisplayGraph) : GraphRender :=
  if loading then .loading
  else
    match g with
    | none => .noData
    | some gd => if gd.nodes.isEmpty then .noData else .graph

/-! ## The analysis catalogue (`useAnalysis`) and its endpoints -/

/-- The `CATEGORIES` object of `useAnalysis`, in source order: each key
paired with the name of the API-client fetcher it carries. -/
def CATEGORIES : List (String × String) :=
  [ ("injection", "getInjectionCandidates")
  , ("ssrf", "getSSRFCandidates")
  , ("idor", "getIDORCandidates")
  , ("fileUpload", "getFileUploadCandidates")
  , ("reflected", "getReflectedParameters")
  , ("arjun", "getArjunCandidates")
  , ("adminDebug", "getAdminDebugEndpoints")
  , ("cors", "getCORSAnalysis")
  , ("sensitiveHeaders", "getSensitiveHeaders")
  , ("technologies", "getHostTechnologies")
  , ("subdomainTakeover", "getSubdomainTakeoverCandidates")
  , ("apiPatterns", "getAPIPatterns") ]

/-- The analysis fetchers of `services/api.js`: each function name paired
with the final path segment of the URL it requests, as in
`api.get('/analysis/program/' + programId + '/' + segment, { params })`. -/
def analysisEndpoints : List (String × String) :=
  [ ("getInjectionCandidates", "injection-candidates")
  , ("getSSRFCandidates", "ssrf-candidates")
  , ("getIDORCandidates", "idor-candidates")
  , ("getFileUploadCandidates", "file-upload-candidates")
  , ("getReflectedParameters", "reflected-parameters")
  , ("getArjunCandidates", "arjun-candidates")
  , ("getAdminDebugEndpoints", "admin-debug-endpoints")
  , ("getCORSAnalysis", "cors-analysis")
  , ("getSensitiveHeaders", "sensitive-headers")
  , ("getHostTechnologies", "technologies")
  , ("getSubdomainTakeoverCandidates", "subdomain-takeover")
  , ("getAPIPatterns", "api-patterns") ]

/-- The URL an analysis fetcher requests for a given program id. -/
def analysisUrl (segment programId : String) : String :=
  "/analysis/program/" ++ programId ++ "/" ++ segment

/-! ## AnalysisEngine and GraphBuilder, modelled from the spec

The Python backend implementing the analysis queries and the graph
builder is not part of the source tree (only the dashboard client is), so
these are modelled from the spec. -/

/-- Modelled from the spec: the paginated response shape of an analysis
category query, `{ items: [...], total: <count> }`. -/
structure AnalysisResponse where
  items : List String
  total : Nat
  deriving DecidableEq, Repr

/-- Modelled from the spec: an AnalysisEngine category query (the Python
AnalysisEngine is missing from the source tree).  A category is a
read-only paginated projection over the Entity Store: its declarative
selection predicate `pred` (whose exact heuristics the spec leaves as a
configurable catalogue) picks the matching items from the store, `total`
is the full count of matching items, and `items` is the page slice given
by `offset` and `limit`. -/
def getAnalysis (store : List String) (pred : String → Bool)
    (limit offset : Nat) : AnalysisResponse :=
  let matching := store.filter pred
  { items := (matching.drop offset).take limit, total := matching.length }

/-- Modelled from the spec: the per-node-type aggregate counts the
GraphBuilder must emit. -/
structure InfraStats where
  asn_count : Nat
  cidr_count : Nat
  ip_count : Nat
  service_count : Nat
  host_count : Nat
  deriving DecidableEq, Repr

/-- Modelled from the spec: the slice of the Entity Store the GraphBuilder
reads — the ASN, CIDR, IP, service and host entities of a program, plus
the containment relations between their ids. -/
structure InfraStore where
  asns : List String
  cidrs : List String
  ips : List String
  services : List String
  hosts : List String
  containment : List (String × String × String)
  deriving DecidableEq, Repr

def emptyInfraStore : InfraStore :=
  { asns := [], cidrs := [], ips := [], services := [], hosts := []
  , containment := [] }

/-- Modelled from the spec: the GraphBuilder (missing from the source
tree) derives `{nodes, edges, stats}` from the Entity Store as a pure
read: one typed node per entity, one edge per containment pair whose two
endpoints exist, and aggregate counts per node type.  It is total, so it
cannot fail on empty data. -/
def buildGraph (s : InfraStore) : RawGraph × InfraStats :=
  let nodes :=
    s.asns.map (fun a => GraphNode.mk ("asn:" ++ a) a "asn" "")
    ++ s.cidrs.map (fun c => GraphNode.mk ("cidr:" ++ c) c "cidr" "")
    ++ s.ips.map (fun i => GraphNode.mk ("ip:" ++ i) i "ip" "")
    ++ s.services.map (fun v => GraphNode.mk ("service:" ++ v) v "service" "")
    ++ s.hosts.map (fun h => GraphNode.mk ("host:" ++ h) h "host" "")
  let ids := nodes.map (fun n => n.id)
  let edges :=
    (s.containment.filter (fun e =>
      ids.contains e.1 && ids.contains e.2.1)).map
      (fun e => GraphEdge.mk e.1 e.2.1 e.2.2)
  (⟨nodes, edges⟩,
   ⟨s.asns.length, s.cidrs.length, s.ips.length, s.services.length, s.hosts.length⟩)

/-! ## The hosts view (`useHosts.filteredAndSortedHosts`)

A fetched host row carries the fields the filter and sort read: the
hostname (`host.host || ''` — absence folded into the empty string), the
optional `services` array, the optional `technologies` object (a map of
name to nullable version), and the numeric aggregate counts. -/

structure HostRow where
  host : String
  services : Option (List String)
  technologies : Option (List (String × Option String))
  endpoint_count : Nat
  parameter_count : Nat
  deriving DecidableEq, Repr

/-- JS string truthiness for an optional filter value: both `null` and
the empty string are falsy. -/
def optSet (o : Option String) : Bool :=
  match o with
  | none => false
  | some s => s != ""

/-- `hay.includes(needle)` on JS strings: the needle's characters occur
contiguously inside the haystack's characters. -/
def containsSub (hay needle : String) : Bool :=
  decide (needle.toList <:+: hay.toList)

/-- The filter predicate of `filteredAndSortedHosts`: a row survives when
it passes the search term (case-insensitive substring of the hostname),
the service filter (`host.services` present and containing the selected
service) and the technology filter (`host.technologies` present and
carrying the selected key). -/
def hostPasses (searchTerm : String) (serviceFilter techFilter : Option String)
    (r : HostRow) : Bool :=
  if searchTerm != "" && !containsSub r.host.toLower searchTerm.toLower then false
  else if optSet serviceFilter &&
      (match r.services with
       | none => true
       | some ss => !ss.contains (serviceFilter.getD "")) then false
  else if optSet techFilter &&
      (match r.technologies with
       | none => true
       | some ts => !(ts.map Prod.fst).contains (techFilter.getD "")) then false
  else true

/-- A JS value read off a host row by dynamic field access `a[field]`. -/
inductive JsVal
  | str (s : String)
  | num (n : Nat)
  | undefined
  deriving DecidableEq, Repr

/-- `a[field]` for the fields the sort dropdown offers; any other field
name reads as `undefined`. -/
def getField (r : HostRow) (field : String) : JsVal :=
  if field = "host" then .str r.host
  else if field = "endpoint_count" then .num r.endpoint_count
  else if field = "parameter_count" then .num r.parameter_count
  else .undefined

/-- JS `<` on the values that actually meet in a comparison: strings
lexicographically, numbers numerically; every comparison involving
`undefined` is false. -/
def jsLt : JsVal → JsVal → Bool
  | .str a, .str b => a < b
  | .num a, .num b => a < b
  | _, _ => false

/-- The comparison body of the sort comparator: when the first value is
a string both values are lowered (a missing second value defaulting to
`''`), then `-1/1/0` by JS `<`, with the signs swapped under `desc`. -/
def jsCompare (desc : Bool) (aRaw bRaw : JsVal) : Int :=
  let vals : JsVal × JsVal :=
    match aRaw, bRaw with
    | .str s, .str t => (.str s.toLower, .str t.toLower)
    | .str s, _ => (.str s.toLower, .str "")
    | av, bv => (av, bv)
  if jsLt vals.1 vals.2 then (if desc then 1 else -1)
  else if jsLt vals.2 vals.1 then (if desc then -1 else 1)
  else 0

/-- The sort comparator of `filteredAndSortedHosts`: `desc` when the key
starts with `'-'`, the field name with the dash stripped, then the value
comparison. -/
def sortComparator (sortBy : String) (a b : HostRow) : Int :=
  let desc := sortBy.startsWith "-"
  let field := if desc then sortBy.drop 1 else sortBy
  jsCompare desc (getField a field) (getField b field)

/-- The order the comparator induces: `a` may precede `b` exactly when
the comparator does not require `b` before `a`. -/
def codeLE (sortBy : String) (a b : HostRow) : Prop :=
  sortComparator sortBy a b ≤ 0

instance (sortBy : String) : DecidableRel (codeLE sortBy) := fun a b =>
  inferInstanceAs (Decidable (sortComparator sortBy a b ≤ 0))

/-- `filteredAndSortedHosts`: filter the fetched page, then sort it by
the comparator.  `Array.prototype.sort` is embedded as insertion sort
over the comparator — it agrees with any correct JS sort up to the order
of ties, which nothing downstream observes. -/
def filteredAndSortedHosts (hosts : List HostRow) (searchTerm : String)
    (serviceFilter techFilter : Option String) (sortBy : String) : List HostRow :=
  (hosts.filter (hostPasses searchTerm serviceFilter techFilter)).insertionSort
    (codeLE sortBy)

/-! ### The claim-side reading of the hosts view -/

/-- The selection the claim describes, stated independently of the code's
if-chain: the search term (when set) occurs case-insensitively inside the
hostname, the selected service (when set) is among the row's services,
and the selected technology key (when set) is among the row's technology
names. -/
def claimKeeps (searchTerm : String) (serviceFilter techFilter : Option String)
    (r : HostRow) : Prop :=
  (searchTerm ≠ "" →
    ∃ pre post, r.host.toLower.toList =
      pre ++ searchTerm.toLower.toList ++ post) ∧
  (∀ s, serviceFilter = some s → s ≠ "" →
    ∃ ss, r.services = some ss ∧ s ∈ ss) ∧
  (∀ t, techFilter = some t → t ≠ "" →
    ∃ ts, r.technologies = some ts ∧ t ∈ ts.map Prod.fst)

/-- The per-field order the claim describes: strings compared
case-insensitively, numbers numerically; a field the row does not carry
imposes no order. -/
def fieldLE (field : String) (a b : HostRow) : Prop :=
  if field = "host" then a.host.toLower ≤ b.host.toLower
  else if field = "endpoint_count" then a.endpoint_count ≤ b.endpoint_count
  else if field = "parameter_count" then a.parameter_count ≤ b.parameter_count
  else True

/-- The order the claim describes for a sort key: by the selected field,
reversed exactly when the key is prefixed with a dash. -/
def claimOrder (sortBy : String) (a b : HostRow) : Prop :=
  if sortBy.startsWith "-" then fieldLE (sortBy.drop 1) b a
  else fieldLE sortBy a b

/-! ## Normalizer / Deduplicator, modelled from the spec

The Python merge/deduplication engine is not part of the source tree, so
the Entity Store and the merge of a TypedRecord into it are modelled from
the spec (section 4.3): fingerprint lookup, insert-if-absent, and the
per-field merge rules — set-valued fields union without duplicates,
observed flags are OR-ed, scalar latest-observation fields keep the
newest non-empty value, and first/last-seen timestamps take min/max. -/

/-- Add one element to a set-valued field: a no-op when it is already
present, so the field never accumulates duplicates. -/
def insertNew {α : Type} [DecidableEq α] (l : List α) (x : α) : List α :=
  if x ∈ l then l else l ++ [x]

/-- Set union for set-valued fields (methods, technologies, CNAME
entries, server headers): elements are added, never removed. -/
def unionSet {α : Type} [DecidableEq α] (l xs : List α) : List α :=
  xs.foldl insertNew l

/-- Scalar latest-observation rule: overwrite with the newest value when
it is non-empty, keep the old one otherwise. -/
def latestNonEmpty {α : Type} (old : Option α) (new : Option α) : Option α :=
  match new with
  | some v => some v
  | none => old

/-- Replace the version recorded for one technology name. -/
def updateTech (l : List (String × Option String)) (name : String)
    (v : Option String) : List (String × Option String) :=
  l.map (fun p => if p.1 = name then (name, v) else p)

/-- Look up the version recorded for a technology name. -/
def findTech (l : List (String × Option String)) (name : String) :
    Option (Option String) :=
  match l with
  | [] => none
  | p :: ps => if p.1 = name then some p.2 else findTech ps name

/-- Merge one observed technology into the technology map: insert when
absent; keep a recorded non-null version; let a newly observed non-null
version replace a recorded null one (a non-empty value is never
overwritten by null). -/
def mergeTech1 (l : List (String × Option String)) (p : String × Option String) :
    List (String × Option String) :=
  match findTech l p.1 with
  | none => l ++ [p]
  | some (some _) => l
  | some none =>
    match p.2 with
    | some v => updateTech l p.1 (some v)
    | none => l

/-- Merge a batch of observed technologies into the technology map. -/
def mergeTechs (l new : List (String × Option String)) :
    List (String × Option String) :=
  new.foldl mergeTech1 l

/-- One observation of a host, as a parser emits it. -/
structure HostRecord where
  programId : Nat
  hostname : String
  cname : List String
  technologies : List (String × Option String)
  serverHeaders : List String
  inScope : Bool
  seenAt : Nat
  deriving DecidableEq, Repr

/-- One observation of an endpoint under an already-resolved host. -/
structure EndpointRecord where
  hostId : Nat
  path : String
  methods : List String
  statusCode : Option Nat
  hasBody : Bool
  deriving DecidableEq, Repr

/-- One observation of an input parameter on an endpoint. -/
structure ParamRecord where
  endpointId : Nat
  name : String
  location : String
  ptype : Option String
  exampleValue : Option String
  reflected : Bool
  deriving DecidableEq, Repr

/-- Modelled from the spec: a TypedRecord handed to the Normalizer. -/
inductive TypedRecord
  | host (r : HostRecord)
  | endpoint (r : EndpointRecord)
  | param (r : ParamRecord)
  deriving DecidableEq, Repr

/-- The canonical host entity: hostname stored in lowercase canonical
form, set-valued fields kept duplicate-free, first/last-seen timestamps. -/
structure HostEntity where
  programId : Nat
  hostname : String
  cname : List String
  technologies : List (String × Option String)
  serverHeaders : List String
  inScope : Bool
  firstSeen : Nat
  lastSeen : Nat
  deriving DecidableEq, Repr

structure EndpointEntity where
  hostId : Nat
  path : String
  methods : List String
  statusCode : Option Nat
  hasBody : Bool
  deriving DecidableEq, Repr

structure ParamEntity where
  endpointId : Nat
  name : String
  location : String
  ptype : Option String
  exampleValue : Option String
  reflected : Bool
  deriving DecidableEq, Repr

/-- Modelled from the spec: the Entity Store, one table per entity. -/
structure EntityStore where
  hosts : List HostEntity
  endpoints : List EndpointEntity
  params : List ParamEntity
  deriving DecidableEq, Repr

/-- Host fingerprint: `(program_id, lowercase hostname)`. -/
def hostFp (r : HostRecord) : Nat × String := (r.programId, r.hostname.toLower)

def hostEntityFp (e : HostEntity) : Nat × String := (e.programId, e.hostname)

/-- Path normalization for the endpoint fingerprint: strip trailing
slashes and lowercase. -/
def normalizePath (p : String) : String :=
  (String.mk ((p.data.reverse.dropWhile (fun c => c = '/')).reverse)).toLower

/-- Endpoint fingerprint: `(host_id, normalized_path)`. -/
def endpointFp (r : EndpointRecord) : Nat × String := (r.hostId, normalizePath r.path)

def endpointEntityFp (e : EndpointEntity) : Nat × String := (e.hostId, e.path)

/-- Parameter fingerprint: `(endpoint_id, name, location)`. -/
def paramFp (r : ParamRecord) : Nat × String × String := (r.endpointId, r.name, r.location)

def paramEntityFp (e : ParamEntity) : Nat × String × String := (e.endpointId, e.name, e.location)

/-- The entity inserted for a first observation of a host. -/
def newHostEntity (r : HostRecord) : HostEntity :=
  { programId := r.programId
  , hostname := r.hostname.toLower
  , cname := unionSet [] r.cname
  , technologies := mergeTechs [] r.technologies
  , serverHeaders := unionSet [] r.serverHeaders
  , inScope := r.inScope
  , firstSeen := r.seenAt
  , lastSeen := r.seenAt }

/-- The per-field merge of a repeated host observation into its canonical
entity. -/
def mergeHostEntity (e : HostEntity) (r : HostRecord) : HostEntity :=
  { e with
    cname := unionSet e.cname r.cname
  , technologies := mergeTechs e.technologies r.technologies
  , serverHeaders := unionSet e.serverHeaders r.serverHeaders
  , inScope := e.inScope || r.inScope
  , firstSeen := min e.firstSeen r.seenAt
  , lastSeen := max e.lastSeen r.seenAt }

def newEndpointEntity (r : EndpointRecord) : EndpointEntity :=
  { hostId := r.hostId
  , path := normalizePath r.path
  , methods := unionSet [] r.methods
  , statusCode := r.statusCode
  , hasBody := r.hasBody }

def mergeEndpointEntity (e : EndpointEntity) (r : EndpointRecord) : EndpointEntity :=
  { e with
    methods := unionSet e.methods r.methods
  , statusCode := latestNonEmpty e.statusCode r.statusCode
  , hasBody := e.hasBody || r.hasBody }

def newParamEntity (r : ParamRecord) : ParamEntity :=
  { endpointId := r.endpointId
  , name := r.name
  , location := r.location
  , ptype := r.ptype
  , exampleValue := r.exampleValue
  , reflected := r.reflected }

def mergeParamEntity (e : ParamEntity) (r : ParamRecord) : ParamEntity :=
  { e with
    ptype := latestNonEmpty e.ptype r.ptype
  , exampleValue := latestNonEmpty e.exampleValue r.exampleValue
  , reflected := e.reflected || r.reflected }

/-- Atomic upsert of a host observation: merge into the entity with the
record's fingerprint when one exists, insert a fresh entity otherwise. -/
def upsertHost : List HostEntity → HostRecord → List HostEntity
  | [], r => [newHostEntity r]
  | e :: es, r =>
    if hostEntityFp e = hostFp r then mergeHostEntity e r :: es
    else e :: upsertHost es r

def upsertEndpoint : List EndpointEntity → EndpointRecord → List EndpointEntity
  | [], r => [newEndpointEntity r]
  | e :: es, r =>
    if endpointEntityFp e = endpointFp r then mergeEndpointEntity e r :: es
    else e :: upsertEndpoint es r

def upsertParam : List ParamEntity → ParamRecord → List ParamEntity
  | [], r => [newParamEntity r]
  | e :: es, r =>
    if paramEntityFp e = paramFp r then mergeParamEntity e r :: es
    else e :: upsertParam es r

/-- Modelled from the spec: merging one TypedRecord into the Entity
Store (the Normalizer/Deduplicator is missing from the source tree). -/
def mergeRecord (s : EntityStore) : TypedRecord → EntityStore
  | .host r => { s with hosts := upsertHost s.hosts r }
  | .endpoint r => { s with endpoints := upsertEndpoint s.endpoints r }
  | .param r => { s with params := upsertParam s.params r }

/-! ## Concrete instances used by counterexamples and witnesses -/

/-- A fetched graph with one node and one edge whose target id names no
fetched node. -/
def c2DanglingGraph : RawGraph :=
  { nodes := [⟨"n1", "a.example.com", "host", ""⟩]
  , edges := [⟨"n1", "n2", "resolves"⟩] }

/-- A well-formed fetched graph: every edge endpoint names a node. -/
def c2WellFormedGraph : RawGraph :=
  { nodes := [⟨"ip1", "1.2.3.4", "ip", ""⟩, ⟨"h1", "a.example.com", "host", ""⟩]
  , edges := [⟨"ip1", "h1", "resolves"⟩] }

/-- A fetched graph with a single ASN node. -/
def c8AsnGraph : RawGraph :=
  { nodes := [⟨"as1", "AS64500", "asn", ""⟩], edges := [] }

end BugBounty

namespace BugBounty

/-! # Theorems -/

/-- C1: the spec exposes `GetInfrastructureGraph(programId)` to the
presentation layer, and the dashboard graph loader indeed imports
`getInfrastructureGraph` from the API client module — but the API client
module (`services/api.js`) exports no binding of that name, so the import
is unresolved and `loadGraph` cannot call it.  This theorem records the
divergence: the name the hook imports is absent from the module's
exports. -/
theorem c1_getInfrastructureGraph_not_exported :
    "getInfrastructureGraph" ∈ useInfrastructureApiImports ∧
    "getInfrastructureGraph" ∉ apiModuleExports := by decide

/-- C7: the analysis hook and the hosts hook both start from the default
pagination `limit 50, offset 0`, and the first query each issues is sent
with exactly those parameters. -/
theorem c7_default_pagination :
    useAnalysisInitialPagination = { limit := 50, offset := 0 } ∧
    loadCategoryParams useAnalysisInitialPagination = (50, 0) ∧
    useHostsInitialPagination.limit = 50 ∧
    useHostsInitialPagination.offset = 0 ∧
    loadHostsParams useHostsInitialPagination = (50, 0) :=
  ⟨rfl, rfl, rfl, rfl, rfl⟩

/-- C10 counterexample: the claim says every scan-form submission leaves
kept target lines untrimmed, but `BaseScanForm.handleSubmit` trims each
line: on the textarea content `" example.com \nb"` it submits
`["example.com", "b"]`, not the untrimmed split `[" example.com ", "b"]`. -/
theorem c10_counterexample :
    baseScanFormTargets " example.com \nb" ≠
      (jsSplitLines " example.com \nb").filter (fun t => jsTrim t != "") := by
  decide

/-- C10 (amended): the ScansPage inline scan forms submit exactly the
textarea content split on newline with the whitespace-only lines removed
and every kept line passed through unchanged; the BaseScanForm-based
forms instead trim each kept line. -/
theorem c10_scan_targets :
    (∀ text : String,
      scanPageTargets text = (jsSplitLines text).filter (fun t => jsTrim t != "")) ∧
    (∀ text : String, ∀ t ∈ scanPageTargets text,
      t ∈ jsSplitLines text ∧ jsTrim t ≠ "") ∧
    scanPageTargets " a \n\n  \nb" = [" a ", "b"] ∧
    (∀ text : String,
      baseScanFormTargets text =
        ((jsSplitLines text).map jsTrim).filter (fun t => t != "")) := by
  refine ⟨fun _ => rfl, ?_, by decide, fun _ => rfl⟩
  intro text t ht
  have h₁ := List.mem_of_mem_filter ht
  have h₂ := List.of_mem_filter ht
  exact ⟨h₁, by simpa using h₂⟩

/-- C10 witness: the amended theorem applied at a concrete submission. -/
theorem c10_scan_targets_witness :
    " a " ∈ jsSplitLines " a \nb" ∧ jsTrim " a " ≠ "" :=
  c10_scan_targets.2.1 " a \nb" " a " (by decide)

/-- C4: for a fixed store and category predicate the `total` of the
paginated analysis response does not depend on the requested limit and
offset — in particular the badge counts fetched with `limit 1, offset 0`
see the same total as any other page — while `total` can differ from
`items.length`. -/
theorem c4_total_page_independent :
    (∀ (store : List String) (pred : String → Bool) (l₁ o₁ l₂ o₂ : Nat),
      (getAnalysis store pred l₁ o₁).total = (getAnalysis store pred l₂ o₂).total) ∧
    (∃ (store : List String) (pred : String → Bool) (l o : Nat),
      (getAnalysis store pred l o).total ≠ (getAnalysis store pred l o).items.length) := by
  constructor
  · intro store pred l₁ o₁ l₂ o₂; rfl
  · exact ⟨["a", "b"], fun _ => true, 1, 0, by decide⟩

/-- C3: on an empty Entity Store every analysis category query returns
`{items: [], total: 0}` (never an error — `getAnalysis` is total), the
GraphBuilder produces the empty graph with zero counts, and the two views
render their empty states — "No results found" and "No infrastructure
data available" — rather than an error. -/
theorem c3_empty_store_empty_views :
    (∀ (pred : String → Bool) (limit offset : Nat),
      getAnalysis [] pred limit offset = { items := [], total := 0 }) ∧
    buildGraph emptyInfraStore = (⟨[], []⟩, ⟨0, 0, 0, 0, 0⟩) ∧
    analysisTableRender false (some { items := [], total := 0 }) = .empty ∧
    analysisTableRender false none = .empty ∧
    graphCanvasRender false (some ⟨[], []⟩) = .noData ∧
    graphCanvasRender false none = .noData := by
  refine ⟨?_, rfl, rfl, rfl, rfl, rfl⟩
  intro pred limit offset
  simp [getAnalysis]

/-- Appending on the left of a string is injective. -/
theorem string_append_right_inj (a : String) {b c : String}
    (h : a ++ b = a ++ c) : b = c := by
  apply String.ext
  have hd := congrArg String.data h
  simp only [String.data_append] at hd
  exact List.append_cancel_left hd

/-- C5: the analysis catalogue has exactly the twelve named categories,
in source order; each category's fetcher is a binding exported by the API
client module and is one of the twelve analysis endpoint functions; and
for every program id the twelve endpoint URLs are pairwise distinct, so
each category is reachable through its own query. -/
theorem c5_twelve_categories :
    CATEGORIES.map Prod.fst =
      ["injection", "ssrf", "idor", "fileUpload", "reflected", "arjun",
       "adminDebug", "cors", "sensitiveHeaders", "technologies",
       "subdomainTakeover", "apiPatterns"] ∧
    CATEGORIES.length = 12 ∧
    (CATEGORIES.all fun c =>
      apiModuleExports.contains c.2 &&
      (analysisEndpoints.map Prod.fst).contains c.2) = true ∧
    ∀ programId : String,
      (analysisEndpoints.map (fun e => analysisUrl e.2 programId)).Nodup := by
  refine ⟨by decide, by decide, by decide, ?_⟩
  intro programId
  have hinj : Function.Injective
      (fun seg => "/analysis/program/" ++ programId ++ "/" ++ seg : String → String) := by
    intro x y h
    exact string_append_right_inj ("/analysis/program/" ++ programId ++ "/")
      (by simpa [String.append_assoc] using h)
  have hsegs : (analysisEndpoints.map Prod.snd).Nodup := by decide
  have hmap : (analysisEndpoints.map (fun e => analysisUrl e.2 programId)) =
      (analysisEndpoints.map Prod.snd).map
        (fun seg => "/analysis/program/" ++ programId ++ "/" ++ seg) := by
    simp [List.map_map, analysisUrl, Function.comp]
  rw [hmap]
  exact hsegs.map hinj

/-- With all five filters enabled every node is visible. -/
theorem nodeVisible_initial (m : GraphNode) :
    nodeVisible initialGraphFilters m = true := by
  simp [nodeVisible, initialGraphFilters]

/-- The visible node-id set characterised over the fetched nodes. -/
theorem visible_ids_contains (ns : List GraphNode) (f : GraphFilters) (x : String) :
    ((ns.filter (nodeVisible f)).map (fun n => n.id)).contains x = true ↔
    ∃ m, m ∈ ns ∧ nodeVisible f m = true ∧ m.id = x := by
  simp [List.mem_filter, List.contains, List.elem_iff]
  constructor
  · rintro ⟨m, ⟨hm, hv⟩, rfl⟩; exact ⟨m, hm, hv, rfl⟩
  · rintro ⟨m, hm, hv, rfl⟩; exact ⟨m, ⟨hm, hv⟩, rfl⟩

/-- C2 counterexample: on a fetched graph with one node and one edge
whose target names no fetched node, all five filters enabled display
every fetched node yet an empty link list, so the displayed graph does
not equal the full graph as the claim's last part states. -/
theorem c2_counterexample :
    (filteredGraphData (some c2DanglingGraph) initialGraphFilters).nodes.map
        DisplayNode.id = c2DanglingGraph.nodes.map GraphNode.id ∧
    (filteredGraphData (some c2DanglingGraph) initialGraphFilters).links = [] ∧
    c2DanglingGraph.edges.map displayLink ≠ [] := by
  refine ⟨by decide, by decide, by decide⟩

/-- C2 (amended): the graph handed to the canvas is a pure function of
the fetched graph and the filter flags — its nodes are exactly the
fetched nodes whose type's filter is enabled, its links exactly the
fetched edges both of whose endpoints remain visible, toggling a filter
leaves the stored full graph untouched — and with all five filters
enabled it equals the full graph provided every edge endpoint names a
fetched node (a dangling edge is dropped even then). -/
theorem c2_filtered_graph (raw : RawGraph) (f : GraphFilters) :
    (∀ n, n ∈ (filteredGraphData (some raw) f).nodes ↔
      ∃ m, m ∈ raw.nodes ∧ nodeVisible f m = true ∧ n = displayNode m) ∧
    (∀ l, l ∈ (filteredGraphData (some raw) f).links ↔
      ∃ e, e ∈ raw.edges ∧ l = displayLink e ∧
        (∃ m, m ∈ raw.nodes ∧ nodeVisible f m = true ∧ m.id = e.source) ∧
        (∃ m, m ∈ raw.nodes ∧ nodeVisible f m = true ∧ m.id = e.target)) ∧
    (∀ (s : InfraState) (name : FilterName),
      (toggleFilter s name).rawData = s.rawData) ∧
    ((raw.edges.all fun e =>
        (raw.nodes.map GraphNode.id).contains e.source &&
        (raw.nodes.map GraphNode.id).contains e.target) = true →
      (filteredGraphData (some raw) initialGraphFilters).nodes =
        raw.nodes.map displayNode ∧
      (filteredGraphData (some raw) initialGraphFilters).links =
        raw.edges.map displayLink) := by
  have hnodes : ∀ g : GraphFilters, (filteredGraphData (some raw) g).nodes
      = (raw.nodes.filter (nodeVisible g)).map displayNode := fun _ => rfl
  have hlinks : ∀ g : GraphFilters, (filteredGraphData (some raw) g).links
      = (raw.edges.filter (fun e =>
          ((raw.nodes.filter (nodeVisible g)).map (fun n => n.id)).contains e.source &&
          ((raw.nodes.filter (nodeVisible g)).map (fun n => n.id)).contains e.target)).map
          displayLink := fun _ => rfl
  refine ⟨?_, ?_, ?_, ?_⟩
  · intro n
    rw [hnodes f]
    simp only [List.mem_map, List.mem_filter]
    constructor
    · rintro ⟨m, ⟨hm, hv⟩, rfl⟩; exact ⟨m, hm, hv, rfl⟩
    · rintro ⟨m, hm, hv, rfl⟩; exact ⟨m, ⟨hm, hv⟩, rfl⟩
  · intro l
    rw [hlinks f]
    simp only [List.mem_map, List.mem_filter, Bool.and_eq_true]
    constructor
    · rintro ⟨e, ⟨he, hs, ht⟩, rfl⟩
      exact ⟨e, he, rfl, (visible_ids_contains _ _ _).1 hs,
        (visible_ids_contains _ _ _).1 ht⟩
    · rintro ⟨e, he, rfl, hs, ht⟩
      exact ⟨e, ⟨he, (visible_ids_contains _ _ _).2 hs,
        (visible_ids_contains _ _ _).2 ht⟩, rfl⟩
  · intro s name
    cases name <;> rfl
  · intro hwf
    have hfilter : raw.nodes.filter (nodeVisible initialGraphFilters) = raw.nodes :=
      List.filter_eq_self.mpr (fun m _ => nodeVisible_initial m)
    constructor
    · rw [hnodes initialGraphFilters, hfilter]
    · rw [hlinks initialGraphFilters, hfilter]
      have hall := List.all_eq_true.1 hwf
      have : raw.edges.filter (fun e =>
          ((raw.nodes.map (fun n => n.id)).contains e.source &&
           (raw.nodes.map (fun n => n.id)).contains e.target)) = raw.edges :=
        List.filter_eq_self.mpr (fun e he => hall e he)
      rw [this]

/-- C2 witness: the amended theorem applied to a well-formed concrete
graph, discharging the well-formedness hypothesis. -/
theorem c2_filtered_graph_witness :
    (filteredGraphData (some c2WellFormedGraph) initialGraphFilters).nodes =
      c2WellFormedGraph.nodes.map displayNode ∧
    (filteredGraphData (some c2WellFormedGraph) initialGraphFilters).links =
      c2WellFormedGraph.edges.map displayLink :=
  (c2_filtered_graph c2WellFormedGraph initialGraphFilters).2.2.2 (by decide)

/-- C8: every node handed to the canvas carries the color and size fixed
for its type — nothing else of the node or of the hook state enters the
computation — with the constants `asn ↦ ('#ef4444', 12)`,
`cidr ↦ ('#f97316', 10)`, `ip ↦ ('#eab308', 6)`,
`service ↦ ('#22c55e', 5)`, `host ↦ ('#3b82f6', 8)` and any other type
`('#666', 6)`; the hook offers no operation that alters these tables. -/
theorem c8_node_style :
    (∀ (raw : Option RawGraph) (f : GraphFilters) n,
      n ∈ (filteredGraphData raw f).nodes →
      n.color = nodeColorOf n.type ∧ n.size = nodeSizeOf n.type) ∧
    nodeColorOf "asn" = "#ef4444" ∧ nodeSizeOf "asn" = 12 ∧
    nodeColorOf "cidr" = "#f97316" ∧ nodeSizeOf "cidr" = 10 ∧
    nodeColorOf "ip" = "#eab308" ∧ nodeSizeOf "ip" = 6 ∧
    nodeColorOf "service" = "#22c55e" ∧ nodeSizeOf "service" = 5 ∧
    nodeColorOf "host" = "#3b82f6" ∧ nodeSizeOf "host" = 8 ∧
    (∀ t, t ∉ ["asn", "cidr", "ip", "service", "host"] →
      nodeColorOf t = "#666" ∧ nodeSizeOf t = 6) := by
  refine ⟨?_, by decide, by decide, by decide, by decide, by decide, by decide,
    by decide, by decide, by decide, by decide, ?_⟩
  · intro raw f n hn
    match raw with
    | none => simp [filteredGraphData] at hn
    | some raw =>
      have : (filteredGraphData (some raw) f).nodes
          = (raw.nodes.filter (nodeVisible f)).map displayNode := rfl
      rw [this] at hn
      rcases List.mem_map.1 hn with ⟨m, _, rfl⟩
      exact ⟨rfl, rfl⟩
  · intro t ht
    simp only [List.mem_cons, List.not_mem_nil, or_false, not_or] at ht
    obtain ⟨h1, h2, h3, h4, h5⟩ := ht
    have e1 : (t == "asn") = false := beq_eq_false_iff_ne.mpr h1
    have e2 : (t == "cidr") = false := beq_eq_false_iff_ne.mpr h2
    have e3 : (t == "ip") = false := beq_eq_false_iff_ne.mpr h3
    have e4 : (t == "service") = false := beq_eq_false_iff_ne.mpr h4
    have e5 : (t == "host") = false := beq_eq_false_iff_ne.mpr h5
    constructor <;>
      simp [nodeColorOf, nodeSizeOf, NODE_COLORS, NODE_SIZES, List.lookup,
        e1, e2, e3, e4, e5]

/-- C8 witness: the style theorem applied to a concrete displayed node
of a concrete fetched graph. -/
theorem c8_node_style_witness :
    (displayNode ⟨"as1", "AS64500", "asn", ""⟩).color =
      nodeColorOf (displayNode ⟨"as1", "AS64500", "asn", ""⟩).type ∧
    (displayNode ⟨"as1", "AS64500", "asn", ""⟩).size =
      nodeSizeOf (displayNode ⟨"as1", "AS64500", "asn", ""⟩).type :=
  c8_node_style.1 (some c8AsnGraph) initialGraphFilters _ (by decide)

/-- The ascending comparator branch agrees with `≤`. -/
theorem cmp_branch_asc {α : Type} [LinearOrder α] (x y : α) :
    (if x < y then (-1 : Int) else if y < x then 1 else 0) ≤ 0 ↔ x ≤ y := by
  rcases lt_trichotomy x y with h | h | h
  · simp [h, le_of_lt h]
  · simp [h, lt_irrefl]
  · simp [h, h.not_lt, not_le.mpr h]

/-- The descending comparator branch agrees with the reversed `≤`. -/
theorem cmp_branch_desc {α : Type} [LinearOrder α] (x y : α) :
    (if x < y then (1 : Int) else if y < x then -1 else 0) ≤ 0 ↔ y ≤ x := by
  rcases lt_trichotomy x y with h | h | h
  · simp [h, h.not_lt, not_le.mpr h]
  · simp [h, lt_irrefl]
  · simp [h, h.not_lt, le_of_lt h]

/-- `jsCompare` on two string values agrees with the case-insensitive
string order, reversed under `desc`. -/
theorem jsCompare_str (desc : Bool) (s t : String) :
    jsCompare desc (.str s) (.str t) ≤ 0 ↔
      (if desc then t.toLower ≤ s.toLower else s.toLower ≤ t.toLower) := by
  cases desc
  · simpa [jsCompare, jsLt] using cmp_branch_asc s.toLower t.toLower
  · simpa [jsCompare, jsLt] using cmp_branch_desc s.toLower t.toLower

/-- `jsCompare` on two numbers agrees with the numeric order, reversed
under `desc`. -/
theorem jsCompare_num (desc : Bool) (m n : Nat) :
    jsCompare desc (.num m) (.num n) ≤ 0 ↔
      (if desc then n ≤ m else m ≤ n) := by
  cases desc
  · simpa [jsCompare, jsLt] using cmp_branch_asc m n
  · simpa [jsCompare, jsLt] using cmp_branch_desc m n

/-- `jsCompare` on two undefined values always ties. -/
theorem jsCompare_undefined (desc : Bool) :
    jsCompare desc .undefined .undefined ≤ 0 := by
  cases desc <;> simp [jsCompare, jsLt]

/-- The code's sort comparator admits exactly the order the claim
describes: by the selected field, reversed under a `'-'` prefix, strings
compared case-insensitively. -/
theorem sortComparator_spec (sb : String) (a b : HostRow) :
    sortComparator sb a b ≤ 0 ↔ claimOrder sb a b := by
  unfold sortComparator claimOrder fieldLE getField
  cases hdesc : sb.startsWith "-" <;>
    simp only [hdesc, Bool.false_eq_true, Bool.true_eq_false, if_false, if_true,
      ite_true, ite_false, reduceIte]
  · by_cases h1 : sb = "host"
    · simpa [h1] using jsCompare_str false a.host b.host
    · by_cases h2 : sb = "endpoint_count"
      · simpa [h1, h2] using jsCompare_num false a.endpoint_count b.endpoint_count
      · by_cases h3 : sb = "parameter_count"
        · simpa [h1, h2, h3] using jsCompare_num false a.parameter_count b.parameter_count
        · simpa [h1, h2, h3] using jsCompare_undefined false
  · by_cases h1 : sb.drop 1 = "host"
    · simpa [h1] using jsCompare_str true a.host b.host
    · by_cases h2 : sb.drop 1 = "endpoint_count"
      · simpa [h1, h2] using jsCompare_num true a.endpoint_count b.endpoint_count
      · by_cases h3 : sb.drop 1 = "parameter_count"
        · simpa [h1, h2, h3] using jsCompare_num true a.parameter_count b.parameter_count
        · simpa [h1, h2, h3] using jsCompare_undefined true

/-- The claim's order is total. -/
theorem claimOrder_total (sb : String) (a b : HostRow) :
    claimOrder sb a b ∨ claimOrder sb b a := by
  unfold claimOrder fieldLE
  split_ifs <;> first | exact le_total _ _ | exact Or.inl trivial

/-- The claim's order is transitive. -/
theorem claimOrder_trans (sb : String) (a b c : HostRow)
    (hab : claimOrder sb a b) (hbc : claimOrder sb b c) : claimOrder sb a c := by
  unfold claimOrder fieldLE at hab hbc ⊢
  split_ifs at hab hbc ⊢ <;>
    first | exact le_trans hab hbc | exact le_trans hbc hab

/-- A three-condition guard chain returns `true` exactly when every
condition fails. -/
theorem if_chain_false_true (b1 b2 b3 : Bool) :
    (if b1 then false else if b2 then false else if b3 then false else true) = true ↔
      b1 = false ∧ b2 = false ∧ b3 = false := by
  cases b1 <;> cases b2 <;> cases b3 <;> simp

/-- The search guard fails exactly when the lowered search term occurs
inside the lowered hostname (or no term is set). -/
theorem search_cond_iff (st : String) (r : HostRow) :
    (st != "" && !containsSub r.host.toLower st.toLower) = false ↔
    (st ≠ "" → ∃ pre post,
      r.host.toLower.toList = pre ++ st.toLower.toList ++ post) := by
  by_cases h : st = ""
  · subst h
    simp
  · have hne : (st != "") = true := bne_iff_ne.mpr h
    rw [hne]
    simp only [Bool.true_and]
    constructor
    · intro hb _
      have hc : containsSub r.host.toLower st.toLower = true := by
        cases hcc : containsSub r.host.toLower st.toLower
        · rw [hcc] at hb
          exact absurd hb (by simp)
        · rfl
      have hinf : st.toLower.toList <:+: r.host.toLower.toList :=
        of_decide_eq_true hc
      obtain ⟨pre, post, hpp⟩ := hinf
      exact ⟨pre, post, hpp.symm⟩
    · intro hx
      obtain ⟨pre, post, hpp⟩ := hx h
      have hinf : st.toLower.toList <:+: r.host.toLower.toList :=
        ⟨pre, post, hpp.symm⟩
      have hc : containsSub r.host.toLower st.toLower = true :=
        decide_eq_true hinf
      rw [hc]
      rfl

/-- The service guard fails exactly when either no service is selected
or the row's service list is present and carries the selected service. -/
theorem service_cond_iff (sf : Option String) (os : Option (List String)) :
    (optSet sf &&
      (match os with
       | none => true
       | some ss => !ss.contains (sf.getD ""))) = false ↔
    (∀ s, sf = some s → s ≠ "" → ∃ ss, os = some ss ∧ s ∈ ss) := by
  cases sf with
  | none => simp [optSet]
  | some s =>
    by_cases hs : s = ""
    · subst hs
      simp [optSet]
    · have hset : optSet (some s) = true := by simp [optSet, hs]
      cases os with
      | none => simp [hset, hs]
      | some ss => simp [hset, hs, List.contains, List.elem_iff]

/-- The technology guard fails exactly when either no technology is
selected or the row's technology map is present and carries the selected
key. -/
theorem tech_cond_iff (tf : Option String)
    (ot : Option (List (String × Option String))) :
    (optSet tf &&
      (match ot with
       | none => true
       | some ts => !(ts.map Prod.fst).contains (tf.getD ""))) = false ↔
    (∀ t, tf = some t → t ≠ "" → ∃ ts, ot = some ts ∧ t ∈ ts.map Prod.fst) := by
  cases tf with
  | none => simp [optSet]
  | some t =>
    by_cases ht : t = ""
    · subst ht
      simp [optSet]
    · have hset : optSet (some t) = true := by simp [optSet, ht]
      cases ot with
      | none => simp [hset, ht]
      | some ts => simp [hset, ht, List.contains, List.elem_iff]

/-- The code's filter keeps exactly the rows the claim describes. -/
theorem hostPasses_iff (st : String) (sf tf : Option String) (r : HostRow) :
    hostPasses st sf tf r = true ↔ claimKeeps st sf tf r := by
  have h := if_chain_false_true
    (st != "" && !containsSub r.host.toLower st.toLower)
    (optSet sf && (match r.services with
      | none => true
      | some ss => !ss.contains (sf.getD "")))
    (optSet tf && (match r.technologies with
      | none => true
      | some ts => !(ts.map Prod.fst).contains (tf.getD "")))
  exact h.trans (and_congr (search_cond_iff st r)
    (and_congr (service_cond_iff sf r.services) (tech_cond_iff tf r.technologies)))

/-- C9: the hosts view presents a permutation of exactly those fetched
rows that pass the search, service and technology filters as the claim
states them, and the presented list is sorted by the selected field —
descending exactly under a `'-'` prefix, string fields compared
case-insensitively. -/
theorem c9_hosts_view (hosts : List HostRow) (searchTerm : String)
    (serviceFilter techFilter : Option String) (sortBy : String) :
    (filteredAndSortedHosts hosts searchTerm serviceFilter techFilter sortBy).Perm
      (hosts.filter (hostPasses searchTerm serviceFilter techFilter)) ∧
    (∀ r, hostPasses searchTerm serviceFilter techFilter r = true ↔
      claimKeeps searchTerm serviceFilter techFilter r) ∧
    (filteredAndSortedHosts hosts searchTerm serviceFilter techFilter sortBy).Sorted
      (claimOrder sortBy) := by
  refine ⟨List.perm_insertionSort _ _, fun r => hostPasses_iff _ _ _ r, ?_⟩
  haveI : IsTotal HostRow (codeLE sortBy) := ⟨fun x y => by
    rcases claimOrder_total sortBy x y with h | h
    · exact Or.inl ((sortComparator_spec sortBy x y).mpr h)
    · exact Or.inr ((sortComparator_spec sortBy y x).mpr h)⟩
  haveI : IsTrans HostRow (codeLE sortBy) := ⟨fun x y z hxy hyz =>
    (sortComparator_spec sortBy x z).mpr
      (claimOrder_trans sortBy x y z ((sortComparator_spec sortBy x y).mp hxy)
        ((sortComparator_spec sortBy y z).mp hyz))⟩
  have hs := List.sorted_insertionSort (codeLE sortBy)
    (hosts.filter (hostPasses searchTerm serviceFilter techFilter))
  exact List.Pairwise.imp (fun h => (sortComparator_spec sortBy _ _).mp h) hs

/-! ### Merge idempotence (C6) -/

/-- Elements of a set-valued field survive an insertion. -/
theorem mem_insertNew {α : Type} [DecidableEq α] {l : List α} {y : α} (x : α)
    (h : y ∈ l) : y ∈ insertNew l x := by
  unfold insertNew
  split
  · exact h
  · exact List.mem_append_left _ h

/-- The inserted element is in the result. -/
theorem self_mem_insertNew {α : Type} [DecidableEq α] (l : List α) (x : α) :
    x ∈ insertNew l x := by
  unfold insertNew
  split
  · assumption
  · simp

/-- Inserting a present element changes nothing. -/
theorem insertNew_of_mem {α : Type} [DecidableEq α] {l : List α} {x : α}
    (h : x ∈ l) : insertNew l x = l := by
  unfold insertNew
  simp [h]

/-- Elements of the left operand survive a set union. -/
theorem mem_unionSet_left {α : Type} [DecidableEq α] {l : List α} {y : α}
    (xs : List α) (h : y ∈ l) : y ∈ unionSet l xs := by
  induction xs generalizing l with
  | nil => exact h
  | cons x xs ih => exact ih (mem_insertNew x h)

/-- Elements of the right operand land in a set union. -/
theorem mem_unionSet_right {α : Type} [DecidableEq α] {y : α} (l : List α)
    {xs : List α} (h : y ∈ xs) : y ∈ unionSet l xs := by
  induction xs generalizing l with
  | nil => cases h
  | cons x xs ih =>
    rcases List.mem_cons.1 h with rfl | hy
    · exact mem_unionSet_left xs (self_mem_insertNew l y)
    · exact ih _ hy

/-- Union with an already-contained batch changes nothing. -/
theorem unionSet_eq_of_subset {α : Type} [DecidableEq α] {l xs : List α}
    (h : ∀ x ∈ xs, x ∈ l) : unionSet l xs = l := by
  induction xs generalizing l with
  | nil => rfl
  | cons x xs ih =>
    show unionSet (insertNew l x) xs = l
    rw [insertNew_of_mem (h x (List.mem_cons_self x xs))]
    exact ih (fun y hy => h y (List.mem_cons_of_mem x hy))

/-- Set union absorbs a repeat of the same batch. -/
theorem unionSet_idem {α : Type} [DecidableEq α] (l xs : List α) :
    unionSet (unionSet l xs) xs = unionSet l xs :=
  unionSet_eq_of_subset (fun _ hx => mem_unionSet_right l hx)

/-- The latest-non-empty rule absorbs a repeat of the same observation. -/
theorem latestNonEmpty_idem {α : Type} (o n : Option α) :
    latestNonEmpty (latestNonEmpty o n) n = latestNonEmpty o n := by
  cases n <;> rfl

/-- A technology map absorbs an observation: its key is recorded, with a
non-null version whenever the observation carried one. -/
def techAbsorbs (l : List (String × Option String))
    (p : String × Option String) : Prop :=
  ∃ v, findTech l p.1 = some v ∧ (p.2 ≠ none → v ≠ none)

/-- The lookup equation on a non-empty technology map. -/
theorem findTech_cons (q : String × Option String)
    (l : List (String × Option String)) (k : String) :
    findTech (q :: l) k = if q.1 = k then some q.2 else findTech l k := rfl

/-- Looking up a key recorded on the left ignores an appended tail. -/
theorem findTech_append_left {l : List (String × Option String)} {k : String}
    {v : Option String} (l' : List (String × Option String))
    (h : findTech l k = some v) : findTech (l ++ l') k = some v := by
  induction l with
  | nil => cases h
  | cons q l ih =>
    rw [findTech_cons] at h
    rw [List.cons_append, findTech_cons]
    by_cases hq : q.1 = k
    · rw [if_pos hq] at h
      rw [if_pos hq]
      exact h
    · rw [if_neg hq] at h
      rw [if_neg hq]
      exact ih h

/-- Looking up a key absent on the left falls through to the tail. -/
theorem findTech_append_of_none {l : List (String × Option String)} {k : String}
    (l' : List (String × Option String)) (h : findTech l k = none) :
    findTech (l ++ l') k = findTech l' k := by
  induction l with
  | nil => rfl
  | cons q l ih =>
    rw [findTech_cons] at h
    rw [List.cons_append, findTech_cons]
    by_cases hq : q.1 = k
    · rw [if_pos hq] at h
      cases h
    · rw [if_neg hq] at h
      rw [if_neg hq]
      exact ih h

/-- Updating a recorded key rewrites its version. -/
theorem findTech_updateTech {l : List (String × Option String)} {k : String}
    {u : Option String} (v : Option String) (h : findTech l k = some u) :
    findTech (updateTech l k v) k = some v := by
  induction l with
  | nil => cases h
  | cons q l ih =>
    rw [findTech_cons] at h
    unfold updateTech
    rw [List.map_cons]
    by_cases hq : q.1 = k
    · rw [if_pos hq, findTech_cons, if_pos rfl]
    · rw [if_neg hq] at h
      rw [if_neg hq, findTech_cons, if_neg hq]
      exact ih h

/-- Updating one key leaves the lookup of any other key unchanged. -/
theorem findTech_updateTech_ne {l : List (String × Option String)}
    {k k' : String} (v : Option String) (hne : k' ≠ k) :
    findTech (updateTech l k v) k' = findTech l k' := by
  induction l with
  | nil => rfl
  | cons q l ih =>
    unfold updateTech
    rw [List.map_cons, findTech_cons]
    by_cases hq : q.1 = k
    · rw [if_pos hq, findTech_cons,
        if_neg (fun hkk : (k, v).1 = k' => hne hkk.symm),
        if_neg (fun hqk : q.1 = k' => hne (hq.symm.trans hqk).symm)]
      exact ih
    · rw [if_neg hq, findTech_cons]
      by_cases hq' : q.1 = k'
      · rw [if_pos hq', if_pos hq']
      · rw [if_neg hq', if_neg hq']
        exact ih

/-- The latest-non-empty rule absorbs the very observation it recorded. -/
theorem latestNonEmpty_self {α : Type} (n : Option α) :
    latestNonEmpty n n = n := by
  cases n <;> rfl

/-- After merging an observation, the technology map absorbs it. -/
theorem techAbsorbs_mergeTech1_self (l : List (String × Option String))
    (p : String × Option String) : techAbsorbs (mergeTech1 l p) p := by
  unfold techAbsorbs
  cases h : findTech l p.1 with
  | none =>
    refine ⟨p.2, ?_, fun h2 => h2⟩
    simp only [mergeTech1, h]
    rw [findTech_append_of_none _ h, findTech_cons, if_pos rfl]
  | some w =>
    cases w with
    | some v =>
      refine ⟨some v, ?_, fun _ => by simp⟩
      simp only [mergeTech1, h]
    | none =>
      cases hp : p.2 with
      | some v =>
        refine ⟨some v, ?_, fun _ => by simp⟩
        simp only [mergeTech1, h, hp]
        exact findTech_updateTech (some v) h
      | none =>
        refine ⟨none, ?_, fun h2 => absurd rfl h2⟩
        simp only [mergeTech1, h, hp]

/-- Merging another observation preserves absorption. -/
theorem techAbsorbs_mergeTech1 {l : List (String × Option String)}
    {q : String × Option String} (p : String × Option String)
    (h : techAbsorbs l q) : techAbsorbs (mergeTech1 l p) q := by
  obtain ⟨v, hv, himp⟩ := h
  cases hf : findTech l p.1 with
  | none =>
    exact ⟨v, by simp only [mergeTech1, hf]; exact findTech_append_left _ hv, himp⟩
  | some w =>
    cases w with
    | some u =>
      exact ⟨v, by simp only [mergeTech1, hf]; exact hv, himp⟩
    | none =>
      cases hp : p.2 with
      | none =>
        exact ⟨v, by simp only [mergeTech1, hf, hp]; exact hv, himp⟩
      | some u =>
        by_cases hq : q.1 = p.1
        · refine ⟨some u, ?_, fun _ => by simp⟩
          simp only [mergeTech1, hf, hp]
          rw [hq]
          exact findTech_updateTech (some u) hf
        · refine ⟨v, ?_, himp⟩
          simp only [mergeTech1, hf, hp]
          rw [findTech_updateTech_ne (some u) hq]
          exact hv

/-- Merging a whole batch preserves absorption. -/
theorem techAbsorbs_mergeTechs_of {l : List (String × Option String)}
    {q : String × Option String} (n : List (String × Option String))
    (h : techAbsorbs l q) : techAbsorbs (mergeTechs l n) q := by
  induction n generalizing l with
  | nil => exact h
  | cons p n ih => exact ih (techAbsorbs_mergeTech1 p h)

/-- After merging a batch, the map absorbs every observation of it. -/
theorem mergeTechs_absorbs (l n : List (String × Option String)) :
    ∀ q ∈ n, techAbsorbs (mergeTechs l n) q := by
  induction n generalizing l with
  | nil => intro q hq; cases hq
  | cons p n ih =>
    intro q hq
    rcases List.mem_cons.1 hq with rfl | hq'
    · exact techAbsorbs_mergeTechs_of n (techAbsorbs_mergeTech1_self l q)
    · exact ih (mergeTech1 l p) q hq'

/-- Merging an absorbed observation changes nothing. -/
theorem mergeTech1_eq_of_absorbs {l : List (String × Option String)}
    {p : String × Option String} (h : techAbsorbs l p) : mergeTech1 l p = l := by
  obtain ⟨v, hv, himp⟩ := h
  cases v with
  | some u => simp only [mergeTech1, hv]
  | none =>
    cases hp : p.2 with
    | none => simp only [mergeTech1, hv, hp]
    | some u =>
      exact absurd rfl (himp (by simp [hp]))

/-- A left fold by a function that fixes the accumulator is the
accumulator. -/
theorem foldl_fixed {α β : Type} (f : α → β → α) (L : α) (n : List β)
    (h : ∀ p ∈ n, f L p = L) : n.foldl f L = L := by
  induction n with
  | nil => rfl
  | cons p n ih =>
    show n.foldl f (f L p) = L
    rw [h p (List.mem_cons_self p n)]
    exact ih (fun q hq => h q (List.mem_cons_of_mem p hq))

/-- The technology merge absorbs a repeat of the same batch. -/
theorem mergeTechs_idem (l n : List (String × Option String)) :
    mergeTechs (mergeTechs l n) n = mergeTechs l n :=
  foldl_fixed _ _ _ (fun p hp => mergeTech1_eq_of_absorbs (mergeTechs_absorbs l n p hp))

/-- Re-merging a host observation into the entity it created is a no-op. -/
theorem mergeHostEntity_new (r : HostRecord) :
    mergeHostEntity (newHostEntity r) r = newHostEntity r := by
  unfold mergeHostEntity newHostEntity
  simp [unionSet_idem, mergeTechs_idem, min_self, max_self]

/-- Re-merging a host observation into an already-merged entity is a
no-op. -/
theorem mergeHostEntity_idem (e : HostEntity) (r : HostRecord) :
    mergeHostEntity (mergeHostEntity e r) r = mergeHostEntity e r := by
  unfold mergeHostEntity
  simp [unionSet_idem, mergeTechs_idem, Bool.or_assoc, min_assoc, max_assoc,
    min_self, max_self]

theorem hostEntityFp_merge (e : HostEntity) (r : HostRecord) :
    hostEntityFp (mergeHostEntity e r) = hostEntityFp e := rfl

theorem hostEntityFp_new (r : HostRecord) :
    hostEntityFp (newHostEntity r) = hostFp r := rfl

theorem upsertHost_cons (e : HostEntity) (es : List HostEntity) (r : HostRecord) :
    upsertHost (e :: es) r =
      if hostEntityFp e = hostFp r then mergeHostEntity e r :: es
      else e :: upsertHost es r := rfl

/-- Upserting the same host observation twice equals upserting it once. -/
theorem upsertHost_idem (hs : List HostEntity) (r : HostRecord) :
    upsertHost (upsertHost hs r) r = upsertHost hs r := by
  induction hs with
  | nil =>
    rw [show upsertHost [] r = [newHostEntity r] from rfl, upsertHost_cons,
      if_pos (hostEntityFp_new r), mergeHostEntity_new]
  | cons e es ih =>
    rw [upsertHost_cons]
    by_cases h : hostEntityFp e = hostFp r
    · rw [if_pos h, upsertHost_cons,
        if_pos (by rw [hostEntityFp_merge]; exact h), mergeHostEntity_idem]
    · rw [if_neg h, upsertHost_cons, if_neg h, ih]

theorem mergeEndpointEntity_new (r : EndpointRecord) :
    mergeEndpointEntity (newEndpointEntity r) r = newEndpointEntity r := by
  unfold mergeEndpointEntity newEndpointEntity
  simp [unionSet_idem, latestNonEmpty_self]

theorem mergeEndpointEntity_idem (e : EndpointEntity) (r : EndpointRecord) :
    mergeEndpointEntity (mergeEndpointEntity e r) r = mergeEndpointEntity e r := by
  unfold mergeEndpointEntity
  simp [unionSet_idem, latestNonEmpty_idem, Bool.or_assoc]

theorem endpointEntityFp_merge (e : EndpointEntity) (r : EndpointRecord) :
    endpointEntityFp (mergeEndpointEntity e r) = endpointEntityFp e := rfl

theorem endpointEntityFp_new (r : EndpointRecord) :
    endpointEntityFp (newEndpointEntity r) = endpointFp r := rfl

theorem upsertEndpoint_cons (e : EndpointEntity) (es : List EndpointEntity)
    (r : EndpointRecord) :
    upsertEndpoint (e :: es) r =
      if endpointEntityFp e = endpointFp r then mergeEndpointEntity e r :: es
      else e :: upsertEndpoint es r := rfl

/-- Upserting the same endpoint observation twice equals upserting it
once. -/
theorem upsertEndpoint_idem (es : List EndpointEntity) (r : EndpointRecord) :
    upsertEndpoint (upsertEndpoint es r) r = upsertEndpoint es r := by
  induction es with
  | nil =>
    rw [show upsertEndpoint [] r = [newEndpointEntity r] from rfl, upsertEndpoint_cons,
      if_pos (endpointEntityFp_new r), mergeEndpointEntity_new]
  | cons e es ih =>
    rw [upsertEndpoint_cons]
    by_cases h : endpointEntityFp e = endpointFp r
    · rw [if_pos h, upsertEndpoint_cons,
        if_pos (by rw [endpointEntityFp_merge]; exact h), mergeEndpointEntity_idem]
    · rw [if_neg h, upsertEndpoint_cons, if_neg h, ih]

theorem mergeParamEntity_new (r : ParamRecord) :
    mergeParamEntity (newParamEntity r) r = newParamEntity r := by
  unfold mergeParamEntity newParamEntity
  simp [latestNonEmpty_self]

theorem mergeParamEntity_idem (e : ParamEntity) (r : ParamRecord) :
    mergeParamEntity (mergeParamEntity e r) r = mergeParamEntity e r := by
  unfold mergeParamEntity
  simp [latestNonEmpty_idem, Bool.or_assoc]

theorem paramEntityFp_merge (e : ParamEntity) (r : ParamRecord) :
    paramEntityFp (mergeParamEntity e r) = paramEntityFp e := rfl

theorem paramEntityFp_new (r : ParamRecord) :
    paramEntityFp (newParamEntity r) = paramFp r := rfl

theorem upsertParam_cons (e : ParamEntity) (es : List ParamEntity)
    (r : ParamRecord) :
    upsertParam (e :: es) r =
      if paramEntityFp e = paramFp r then mergeParamEntity e r :: es
      else e :: upsertParam es r := rfl

/-- Upserting the same parameter observation twice equals upserting it
once. -/
theorem upsertParam_idem (es : List ParamEntity) (r : ParamRecord) :
    upsertParam (upsertParam es r) r = upsertParam es r := by
  induction es with
  | nil =>
    rw [show upsertParam [] r = [newParamEntity r] from rfl, upsertParam_cons,
      if_pos (paramEntityFp_new r), mergeParamEntity_new]
  | cons e es ih =>
    rw [upsertParam_cons]
    by_cases h : paramEntityFp e = paramFp r
    · rw [if_pos h, upsertParam_cons,
        if_pos (by rw [paramEntityFp_merge]; exact h), mergeParamEntity_idem]
    · rw [if_neg h, upsertParam_cons, if_neg h, ih]

/-- C6: merging the same TypedRecord into the Entity Store twice
produces the same store state as merging it once, for every record and
every starting store — no duplicate rows appear (the second merge folds
into the row the first one touched) and no duplicate elements enter the
set-valued fields (set union inserts only absent elements). -/
theorem c6_merge_idempotent (s : EntityStore) (r : TypedRecord) :
    mergeRecord (mergeRecord s r) r = mergeRecord s r := by
  cases r with
  | host r => simp [mergeRecord, upsertHost_idem]
  | endpoint r => simp [mergeRecord, upsertEndpoint_idem]
  | param r => simp [mergeRecord, upsertParam_idem]

end BugBounty
